import Mathlib

set_option linter.unusedVariables false

/-!
Verification of the `cs393_vm_api` address-space manager
(`src/address_space.rs`) against its natural-language specification.

The Rust code is shallowly embedded: `usize` values become `Nat` with
wrap-around (`% 2 ^ 64`) made explicit exactly where the machine addition
can overflow, `Arc<dyn DataSource>` becomes an opaque numeric handle,
`LinkedList<MapEntry>` becomes `List MapEntry`, and each `&mut self`
method returning `Result<T, &str>` becomes a pure function returning the
`Except String T` result paired with the post-state of the address space.
-/

namespace Vm

/-- `2 ^ 64`, the number of values of the 64-bit `usize` type. -/
def USIZE : Nat := 2 ^ 64

/-- `usize::MAX`, the maximum representable address. -/
def UMAX : Nat := USIZE - 1

/-- Wrapping 64-bit addition: the semantics of `a + b` on `usize`
(release profile) used by the comparisons in the Rust source. -/
def wadd (a b : Nat) : Nat := (a + b) % USIZE

/-- Embedding of `struct MapEntry` from `src/address_space.rs`.
The `Arc<dyn DataSource>` handle is modelled as an opaque `Nat` id. -/
structure MapEntry where
  source : Nat
  offset : Nat
  span : Nat
  addr : Nat
deriving DecidableEq, Repr

/-- Embedding of `pub struct AddressSpace`. -/
structure AddressSpace where
  name : String
  mappings : List MapEntry
deriving DecidableEq, Repr

instance {ε α : Type} [DecidableEq ε] [DecidableEq α] : DecidableEq (Except ε α) := fun a b =>
  match a, b with
  | .ok x, .ok y =>
    if h : x = y then isTrue (by rw [h]) else isFalse (fun hc => h (by injection hc))
  | .error x, .error y =>
    if h : x = y then isTrue (by rw [h]) else isFalse (fun hc => h (by injection hc))
  | .ok _, .error _ => isFalse (fun hc => Except.noConfusion hc)
  | .error _, .ok _ => isFalse (fun hc => Except.noConfusion hc)

/-- `AddressSpace::new`: an address space starts with no mappings. -/
def AddressSpace.new (name : String) : AddressSpace := ⟨name, []⟩

/-- The predicate of the iterator search in `add_mapping_at`:
`x.addr + x.span >= start`, with the wrapping `usize` sum. -/
def endGe (start : Nat) (x : MapEntry) : Bool := decide (start ≤ wadd x.addr x.span)

/-- Embedding of `AddressSpace::add_mapping_at`.  The Rust method scans for
the first entry with `addr + span >= start` (`find` over the list order);
if none exists it checks `usize::MAX - span <= start` and otherwise pushes
the new entry at the back; if one exists at index `i` it errors when
`entry.addr <= start + span` and otherwise splices the new entry in at
index `i` (`split_off` / `push_front` / `append`).  The find-then-split is
rendered with `takeWhile` / `dropWhile` on the negated predicate, and the
result is paired with the post-state of the `&mut self` receiver. -/
def AddressSpace.add_mapping_at (a : AddressSpace) (source offset span start : Nat) :
    Except String Unit × AddressSpace :=
  match a.mappings.dropWhile (fun x => !endGe start x) with
  | [] =>
    if UMAX - span ≤ start then
      (.error "no space for that map", a)
    else
      (.ok (), { a with mappings := a.mappings ++ [⟨source, offset, span, start⟩] })
  | e :: rest =>
    if e.addr ≤ wadd start span then
      (.error "no space for that map", a)
    else
      (.ok (), { a with mappings :=
        a.mappings.takeWhile (fun x => !endGe start x)
          ++ ⟨source, offset, span, start⟩ :: e :: rest })

/-- The fold in `AddressSpace::add_mapping` choosing the candidate base
address: `fold(0, |spot, x| if x.addr > spot + span { spot } else { x.addr + x.span })`. -/
def AddressSpace.first_spot (a : AddressSpace) (span : Nat) : Nat :=
  a.mappings.foldl (fun spot x => if wadd spot span < x.addr then spot else wadd x.addr x.span) 0

/-- Embedding of `AddressSpace::add_mapping`: compute the candidate spot by
the fold, delegate to `add_mapping_at`, and map the unit success to the
chosen spot. -/
def AddressSpace.add_mapping (a : AddressSpace) (source offset span : Nat) :
    Except String Nat × AddressSpace :=
  let spot := a.first_spot span
  let r := a.add_mapping_at source offset span spot
  (r.1.map (fun _ => spot), r.2)

/-- Embedding of `AddressSpace::remove_mapping`: find the first entry whose
`addr` equals `start` (the `source` argument is never consulted), error if
there is none, otherwise excise exactly that entry
(`split_off` / `pop_front` / `append`). -/
def AddressSpace.remove_mapping (a : AddressSpace) (source start : Nat) :
    Except String Unit × AddressSpace :=
  match a.mappings.dropWhile (fun x => !(x.addr == start)) with
  | [] => (.error "that map doesn\x27t exist", a)
  | _e :: rest =>
    (.ok (), { a with mappings := a.mappings.takeWhile (fun x => !(x.addr == start)) ++ rest })

/-- Embedding of `FlagBuilder` (six independent boolean capability bits). -/
structure FlagBuilder where
  read : Bool := false
  write : Bool := false
  execute : Bool := false
  cow : Bool := false
  «private» : Bool := false
  shared : Bool := false
deriving DecidableEq, Repr

/-- `FlagBuilder::new`: all flags off. -/
def FlagBuilder.new : FlagBuilder := {}

/-- `FlagBuilder::read()`: only the read flag on. -/
def FlagBuilder.readOnly : FlagBuilder := { read := true }

/-- `FlagBuilder::write()`: only the write flag on. -/
def FlagBuilder.writeOnly : FlagBuilder := { write := true }

/-- `FlagBuilder::execute()`: only the execute flag on. -/
def FlagBuilder.executeOnly : FlagBuilder := { execute := true }

/-- `FlagBuilder::toggle_read`. -/
def FlagBuilder.toggle_read (f : FlagBuilder) : FlagBuilder := { f with read := !f.read }

/-- `FlagBuilder::toggle_write`. -/
def FlagBuilder.toggle_write (f : FlagBuilder) : FlagBuilder := { f with write := !f.write }

/-- `FlagBuilder::and`: boolean or of each field. -/
def FlagBuilder.and (f g : FlagBuilder) : FlagBuilder :=
  ⟨f.read || g.read, f.write || g.write, f.execute || g.execute,
    f.cow || g.cow, f.«private» || g.«private», f.shared || g.shared⟩

/-- `FlagBuilder::but_not`: `self and-not other` on each field. -/
def FlagBuilder.but_not (f g : FlagBuilder) : FlagBuilder :=
  ⟨f.read && !g.read, f.write && !g.write, f.execute && !g.execute,
    f.cow && !g.cow, f.«private» && !g.«private», f.shared && !g.shared⟩

/-- Embedding of `AddressSpace::get_source_for_addr`: reject any request
whose `read` flag is set, then return the source handle and the *stored*
offset of the first entry with `addr <= a <= addr + span` (closed at both
ends, wrapping sum), never adding `a - addr`. -/
def AddressSpace.get_source_for_addr (a : AddressSpace) (addr : Nat)
    (access_type : FlagBuilder) : Except String (Nat × Nat) :=
  if access_type.read then
    .error "wrong permissions"
  else
    match a.mappings.find? (fun x => decide (x.addr ≤ addr) && decide (addr ≤ wadd x.addr x.span)) with
    | none => .error "that address isn\x27t mapped"
    | some e => .ok (e.source, e.offset)

/-- Two entries viewed as half-open intervals `[addr, addr + span)` over the
naturals have a common point. -/
def Intersects (x y : MapEntry) : Prop :=
  max x.addr y.addr < min (x.addr + x.span) (y.addr + y.span)

instance : DecidableRel Intersects := fun x y => by
  unfold Intersects; infer_instance

/-- Strict separation in list order: `x` ends strictly before `y` starts. -/
def EntrySep (x y : MapEntry) : Prop := x.addr + x.span < y.addr

instance : DecidableRel EntrySep := fun x y => by
  unfold EntrySep; infer_instance

/-- Well-formedness invariant maintained by wrap-free traces: entries are
strictly separated in list order and no entry reaches past `usize::MAX`. -/
def WF (l : List MapEntry) : Prop :=
  l.Pairwise EntrySep ∧ ∀ x ∈ l, x.addr + x.span ≤ UMAX

/-- The entry sequence is sorted by ascending base address. -/
def SortedByAddr (l : List MapEntry) : Prop :=
  l.Pairwise (fun x y => x.addr ≤ y.addr)

instance : Decidable (SortedByAddr l) := by
  unfold SortedByAddr; infer_instance

/-- States reachable from `new` by successful calls none of which wraps the
64-bit address arithmetic: each fixed placement has `start + span < 2 ^ 64`
and each auto placement's chosen spot likewise. -/
inductive ReachNW : AddressSpace → Prop where
  | new (name : String) : ReachNW (AddressSpace.new name)
  | addAt {a a' : AddressSpace} (src off span start : Nat) :
      ReachNW a → start + span < USIZE →
      a.add_mapping_at src off span start = (.ok (), a') → ReachNW a'
  | add {a a' : AddressSpace} (src off span v : Nat) :
      ReachNW a → a.first_spot span + span < USIZE →
      a.add_mapping src off span = (.ok v, a') → ReachNW a'
  | remove {a a' : AddressSpace} (src start : Nat) :
      ReachNW a → a.remove_mapping src start = (.ok (), a') → ReachNW a'

/-- A reachable one-entry state used by the concrete wrap-around
counterexamples: the single mapping occupies `[2 ^ 64 - 10, 2 ^ 64 - 5)`. -/
def nearTop : AddressSpace := ⟨"a", [⟨0, 0, 5, 2 ^ 64 - 10⟩]⟩

/-- The state after inserting span 100 at `2 ^ 64 - 6` into `nearTop`:
the `start + span` comparison wraps, the insertion succeeds, and the new
entry overlaps the old one and precedes it despite its larger address. -/
def nearTop2 : AddressSpace :=
  ⟨"a", [⟨0, 0, 100, 2 ^ 64 - 6⟩, ⟨0, 0, 5, 2 ^ 64 - 10⟩]⟩

/-- The state after a second wrap-around insertion at the same base address
`2 ^ 64 - 6`, giving two entries with equal `addr`. -/
def nearTop3 : AddressSpace :=
  ⟨"a", [⟨0, 0, 100, 2 ^ 64 - 6⟩, ⟨7, 7, 100, 2 ^ 64 - 6⟩, ⟨0, 0, 5, 2 ^ 64 - 10⟩]⟩

/-! ### Arithmetic and list helpers -/

lemma UMAX_lt_USIZE : UMAX < USIZE := by
  unfold UMAX USIZE
  omega

lemma wadd_eq_of_lt {x y : Nat} (h : x + y < USIZE) : wadd x y = x + y :=
  Nat.mod_eq_of_lt h

lemma sub_guard_lt {span start : Nat} (h : ¬ UMAX - span ≤ start) : start + span < UMAX := by
  rcases Nat.lt_or_ge (start + span) UMAX with h1 | h1
  · exact h1
  · exact absurd (Nat.sub_le_iff_le_add.mpr h1) h

lemma takeWhile_append_of_all {α : Type} {p : α → Bool} {l₁ l₂ : List α}
    (h : ∀ x ∈ l₁, p x = true) :
    (l₁ ++ l₂).takeWhile p = l₁ ++ l₂.takeWhile p := by
  induction l₁ with
  | nil => rfl
  | cons a l ih =>
    rw [List.cons_append, List.takeWhile_cons, if_pos (h a (by simp)), List.cons_append,
      ih (fun x hx => h x (by simp [hx]))]

lemma dropWhile_append_of_all {α : Type} {p : α → Bool} {l₁ l₂ : List α}
    (h : ∀ x ∈ l₁, p x = true) :
    (l₁ ++ l₂).dropWhile p = l₂.dropWhile p := by
  induction l₁ with
  | nil => rfl
  | cons a l ih =>
    rw [List.cons_append, List.dropWhile_cons, if_pos (h a (by simp)),
      ih (fun x hx => h x (by simp [hx]))]

lemma dropWhile_cons_head {α : Type} {p : α → Bool} {l rest : List α} {e : α}
    (h : l.dropWhile p = e :: rest) : p e = false := by
  induction l with
  | nil => exact absurd h (by simp)
  | cons a l ih =>
    rw [List.dropWhile_cons] at h
    by_cases hp : p a = true
    · exact ih (by rwa [if_pos hp] at h)
    · rw [if_neg hp] at h
      cases h
      exact Bool.eq_false_iff.mpr hp

lemma eraseP_eq_takeWhile_append {α : Type} (p : α → Bool) (l : List α) :
    l.eraseP p = l.takeWhile (fun x => !p x) ++ (l.dropWhile (fun x => !p x)).tail := by
  induction l with
  | nil => rfl
  | cons a l ih =>
    by_cases h : p a
    · simp [List.eraseP_cons, List.takeWhile_cons, List.dropWhile_cons, h]
    · simp [List.eraseP_cons, List.takeWhile_cons, List.dropWhile_cons, h, ih]

/-! ### Characterization of each branch of the operations -/

lemma addAt_nil_err {a : AddressSpace} {src off span start : Nat}
    (hd : a.mappings.dropWhile (fun x => !endGe start x) = [])
    (hc : UMAX - span ≤ start) :
    a.add_mapping_at src off span start = (.error "no space for that map", a) := by
  unfold AddressSpace.add_mapping_at
  rw [hd]
  exact if_pos hc

lemma addAt_nil_ok {a : AddressSpace} {src off span start : Nat}
    (hd : a.mappings.dropWhile (fun x => !endGe start x) = [])
    (hc : ¬ UMAX - span ≤ start) :
    a.add_mapping_at src off span start
      = (.ok (), { a with mappings := a.mappings ++ [⟨src, off, span, start⟩] }) := by
  unfold AddressSpace.add_mapping_at
  rw [hd]
  exact if_neg hc

lemma addAt_cons_err {a : AddressSpace} {src off span start : Nat} {e : MapEntry}
    {rest : List MapEntry}
    (hd : a.mappings.dropWhile (fun x => !endGe start x) = e :: rest)
    (hc : e.addr ≤ wadd start span) :
    a.add_mapping_at src off span start = (.error "no space for that map", a) := by
  unfold AddressSpace.add_mapping_at
  rw [hd]
  exact if_pos hc

lemma addAt_cons_ok {a : AddressSpace} {src off span start : Nat} {e : MapEntry}
    {rest : List MapEntry}
    (hd : a.mappings.dropWhile (fun x => !endGe start x) = e :: rest)
    (hc : ¬ e.addr ≤ wadd start span) :
    a.add_mapping_at src off span start
      = (.ok (), { a with mappings :=
          a.mappings.takeWhile (fun x => !endGe start x)
            ++ ⟨src, off, span, start⟩ :: e :: rest }) := by
  unfold AddressSpace.add_mapping_at
  rw [hd]
  exact if_neg hc

lemma remove_nil_err {a : AddressSpace} {src start : Nat}
    (hd : a.mappings.dropWhile (fun x => !(x.addr == start)) = []) :
    a.remove_mapping src start = (.error "that map doesn\x27t exist", a) := by
  unfold AddressSpace.remove_mapping
  rw [hd]

lemma remove_cons_ok {a : AddressSpace} {src start : Nat} {e : MapEntry} {rest : List MapEntry}
    (hd : a.mappings.dropWhile (fun x => !(x.addr == start)) = e :: rest) :
    a.remove_mapping src start
      = (.ok (), { a with mappings :=
          a.mappings.takeWhile (fun x => !(x.addr == start)) ++ rest }) := by
  unfold AddressSpace.remove_mapping
  rw [hd]

lemma add_mapping_eq (a : AddressSpace) (src off span : Nat) :
    a.add_mapping src off span
      = ((a.add_mapping_at src off span (a.first_spot span)).1.map (fun _ => a.first_spot span),
         (a.add_mapping_at src off span (a.first_spot span)).2) := rfl

/-! ### Preservation of the well-formedness invariant -/

lemma add_mapping_at_WF {a a' : AddressSpace} {src off span start : Nat}
    (hwf : WF a.mappings) (hns : start + span < USIZE)
    (h : a.add_mapping_at src off span start = (.ok (), a')) :
    WF a'.mappings := by
  obtain ⟨hpw, hbd⟩ := hwf
  rcases hd : a.mappings.dropWhile (fun x => !endGe start x) with _ | ⟨e, rest⟩
  · by_cases hc : UMAX - span ≤ start
    · rw [addAt_nil_err hd hc] at h
      exact absurd h (by simp)
    · rw [addAt_nil_ok hd hc] at h
      injection h with h1 h2
      subst h2
      constructor
      · rw [List.pairwise_append]
        refine ⟨hpw, List.pairwise_singleton _ _, ?_⟩
        intro x hx b hb
        rw [List.mem_singleton] at hb
        subst hb
        have hx' := List.dropWhile_eq_nil_iff.mp hd x hx
        simp only [endGe, Bool.not_eq_true'] at hx'
        have hw : wadd x.addr x.span < start := Nat.lt_of_not_le (of_decide_eq_false hx')
        rw [wadd_eq_of_lt (Nat.lt_of_le_of_lt (hbd x hx) UMAX_lt_USIZE)] at hw
        exact hw
      · intro x hx
        rw [List.mem_append] at hx
        rcases hx with h1 | h1
        · exact hbd x h1
        · rw [List.mem_singleton] at h1
          subst h1
          exact Nat.le_of_lt (sub_guard_lt hc)
  · by_cases hc : e.addr ≤ wadd start span
    · rw [addAt_cons_err hd hc] at h
      exact absurd h (by simp)
    · rw [addAt_cons_ok hd hc] at h
      injection h with h1 h2
      subst h2
      have hse : start + span < e.addr := by
        rw [wadd_eq_of_lt hns] at hc
        exact Nat.lt_of_not_le hc
      have hL : a.mappings.takeWhile (fun x => !endGe start x) ++ e :: rest = a.mappings := by
        rw [← hd]
        exact List.takeWhile_append_dropWhile _ _
      have hpre : ∀ x ∈ a.mappings.takeWhile (fun x => !endGe start x),
          x.addr + x.span < start := by
        intro x hx
        have hx' := List.mem_takeWhile_imp hx
        have hxl : x ∈ a.mappings := (List.takeWhile_prefix _).subset hx
        simp only [endGe, Bool.not_eq_true'] at hx'
        have hw : wadd x.addr x.span < start := Nat.lt_of_not_le (of_decide_eq_false hx')
        rwa [wadd_eq_of_lt (Nat.lt_of_le_of_lt (hbd x hxl) UMAX_lt_USIZE)] at hw
      have hmemD : ∀ x ∈ e :: rest, x ∈ a.mappings := by
        intro x hx
        rw [← hd] at hx
        exact (List.dropWhile_suffix _).subset hx
      rw [← hL, List.pairwise_append] at hpw
      obtain ⟨hpwT, hpwD, hcross⟩ := hpw
      constructor
      · rw [List.pairwise_append]
        refine ⟨hpwT, ?_, ?_⟩
        · rw [List.pairwise_cons]
          refine ⟨?_, hpwD⟩
          intro y hy
          rcases List.mem_cons.mp hy with rfl | hy'
          · exact hse
          · have hey := (List.pairwise_cons.mp hpwD).1 y hy'
            exact Nat.lt_trans (Nat.lt_of_lt_of_le hse (Nat.le_add_right e.addr e.span)) hey
        · intro x hxT b hb
          rcases List.mem_cons.mp hb with rfl | hb'
          · exact hpre x hxT
          · exact hcross x hxT b hb'
      · intro x hx
        rw [List.mem_append] at hx
        rcases hx with h1 | h1
        · exact hbd x ((List.takeWhile_prefix _).subset h1)
        · rcases List.mem_cons.mp h1 with rfl | h2
          · exact Nat.le_trans (Nat.le_of_lt hse)
              (Nat.le_trans (Nat.le_add_right e.addr e.span) (hbd e (hmemD e (by simp))))
          · exact hbd x (hmemD x h2)

lemma remove_mapping_WF {a a' : AddressSpace} {src start : Nat}
    (hwf : WF a.mappings) (h : a.remove_mapping src start = (.ok (), a')) :
    WF a'.mappings := by
  obtain ⟨hpw, hbd⟩ := hwf
  rcases hd : a.mappings.dropWhile (fun x => !(x.addr == start)) with _ | ⟨e, rest⟩
  · rw [remove_nil_err hd] at h
    exact absurd h (by simp)
  · rw [remove_cons_ok hd] at h
    injection h with h1 h2
    subst h2
    have hL : a.mappings.takeWhile (fun x => !(x.addr == start)) ++ e :: rest = a.mappings := by
      rw [← hd]
      exact List.takeWhile_append_dropWhile _ _
    have hsub : (a.mappings.takeWhile (fun x => !(x.addr == start)) ++ rest).Sublist
        a.mappings := by
      have h0 := List.Sublist.append_left (List.sublist_cons_self e rest)
        (a.mappings.takeWhile (fun x => !(x.addr == start)))
      rwa [hL] at h0
    exact ⟨List.Pairwise.sublist hsub hpw, fun x hx => hbd x (hsub.subset hx)⟩

lemma add_mapping_WF {a a' : AddressSpace} {src off span v : Nat}
    (hwf : WF a.mappings) (hns : a.first_spot span + span < USIZE)
    (h : a.add_mapping src off span = (.ok v, a')) :
    WF a'.mappings := by
  rw [add_mapping_eq] at h
  rcases hr : a.add_mapping_at src off span (a.first_spot span) with ⟨r1, r2⟩
  rw [hr] at h
  injection h with h1 h2
  cases r1 with
  | error msg =>
    exact Except.noConfusion (show (Except.error msg : Except String Nat) = .ok v from h1)
  | ok u =>
    cases u
    subst h2
    exact add_mapping_at_WF hwf hns hr

lemma reach_WF {a : AddressSpace} (h : ReachNW a) : WF a.mappings := by
  induction h with
  | new n => exact ⟨List.Pairwise.nil, fun x hx => nomatch hx⟩
  | addAt src off span start hr hns hok ih => exact add_mapping_at_WF ih hns hok
  | add src off span v hr hns hok ih => exact add_mapping_WF ih hns hok
  | remove src start hr hok ih => exact remove_mapping_WF ih hok

lemma entrySep_not_intersects {x y : MapEntry} (h : EntrySep x y) : ¬ Intersects x y := by
  intro hi
  have h1 : y.addr < x.addr + x.span :=
    Nat.lt_of_le_of_lt (Nat.le_max_right x.addr y.addr)
      (Nat.lt_of_lt_of_le hi (Nat.min_le_left _ _))
  exact absurd h (Nat.lt_asymm h1)

/-! ### Claim theorems -/

/-- Claim C1, amended: starting from `new`, after every sequence of
successful `add_mapping`, `add_mapping_at` and `remove_mapping` calls in
which no insertion wraps the 64-bit address arithmetic (each fixed
placement has `start + span < 2 ^ 64`, and each auto placement's chosen
spot plus span likewise), the `[addr, addr + span)` intervals of every
pair of distinct entries do not intersect (`Intersects` is symmetric, so
the `Pairwise` covers every unordered pair of distinct positions). -/
theorem c1_no_overlap {a : AddressSpace} (h : ReachNW a) :
    a.mappings.Pairwise (fun x y => ¬ Intersects x y) :=
  (reach_WF h).1.imp (fun hxy => entrySep_not_intersects hxy)

theorem c1_no_overlap_witness :
    (⟨"w", [⟨1, 2, 10, 0⟩]⟩ : AddressSpace).mappings.Pairwise (fun x y => ¬ Intersects x y) :=
  c1_no_overlap (ReachNW.addAt 1 2 10 0 (ReachNW.new "w") (by decide) (by decide))

/-- Claim C1, counterexample: two successful `add_mapping_at` calls from
`new` (the second with `start + span` past `2 ^ 64`, which the missing
overflow check lets through) leave two entries whose intervals
intersect. -/
theorem c1_cex :
    ((AddressSpace.new "a").add_mapping_at 0 0 5 (2 ^ 64 - 10) = (.ok (), nearTop))
    ∧ (nearTop.add_mapping_at 0 0 100 (2 ^ 64 - 6) = (.ok (), nearTop2))
    ∧ nearTop2.mappings = [⟨0, 0, 100, 2 ^ 64 - 6⟩, ⟨0, 0, 5, 2 ^ 64 - 10⟩]
    ∧ Intersects ⟨0, 0, 100, 2 ^ 64 - 6⟩ ⟨0, 0, 5, 2 ^ 64 - 10⟩ := by
  decide

/-- Claim C2, code bug: on an address space with exactly `[0,10)` and
`[20,30)`, the fold in `add_mapping` does select the first-fit spots the
claim names (10 for span 5, 30 for span 15), but both calls then return an
error instead of succeeding, because `add_mapping_at`'s overlap test also
rejects a candidate that merely touches the entry ending at its start. -/
theorem c2_first_fit_fails :
    ((⟨"b", [⟨0, 0, 10, 0⟩, ⟨0, 0, 10, 20⟩]⟩ : AddressSpace).first_spot 5 = 10)
    ∧ ((⟨"b", [⟨0, 0, 10, 0⟩, ⟨0, 0, 10, 20⟩]⟩ : AddressSpace).first_spot 15 = 30)
    ∧ ((⟨"b", [⟨0, 0, 10, 0⟩, ⟨0, 0, 10, 20⟩]⟩ : AddressSpace).add_mapping 1 0 5
        = (.error "no space for that map", ⟨"b", [⟨0, 0, 10, 0⟩, ⟨0, 0, 10, 20⟩]⟩))
    ∧ ((⟨"b", [⟨0, 0, 10, 0⟩, ⟨0, 0, 10, 20⟩]⟩ : AddressSpace).add_mapping 1 0 15
        = (.error "no space for that map", ⟨"b", [⟨0, 0, 10, 0⟩, ⟨0, 0, 10, 20⟩]⟩)) := by
  decide

/-- Claim C3, code bug: for the single mapping `[100,200)` with stored
offset 0, translating 100 yields offset 0 as claimed, but translating 199
also yields offset 0 (the code returns the stored offset, never adding
`addr - base`), and translating 200 succeeds as well (the containment test
is closed at the end) instead of failing with the unmapped-address
error. -/
theorem c3_translate_diverges :
    ((⟨"c", [⟨0, 0, 100, 100⟩]⟩ : AddressSpace).get_source_for_addr 100 FlagBuilder.new
        = .ok (0, 0))
    ∧ ((⟨"c", [⟨0, 0, 100, 100⟩]⟩ : AddressSpace).get_source_for_addr 199 FlagBuilder.new
        = .ok (0, 0))
    ∧ ((⟨"c", [⟨0, 0, 100, 100⟩]⟩ : AddressSpace).get_source_for_addr 200 FlagBuilder.new
        = .ok (0, 0)) := by
  decide

/-- Claim C4, code bug: entries store no capability flags at all, and
`get_source_for_addr` rejects exactly the requests whose `read` flag is
set: a read-only request on a mapped address fails with the permissions
error while a write-only request succeeds — the reverse of the claim. -/
theorem c4_permission_reversed :
    ((⟨"c", [⟨0, 0, 100, 100⟩]⟩ : AddressSpace).get_source_for_addr 150 FlagBuilder.readOnly
        = .error "wrong permissions")
    ∧ ((⟨"c", [⟨0, 0, 100, 100⟩]⟩ : AddressSpace).get_source_for_addr 150 FlagBuilder.writeOnly
        = .ok (0, 0)) := by
  decide

/-- Claim C5, code bug: the overflow guard runs only when no existing entry
has `addr + span >= start`; on the reachable state `nearTop` a call with
`start + span` exceeding `usize::MAX` takes the splice branch, the wrapped
comparison lets it through, and the call succeeds instead of returning the
insufficient-space error. -/
theorem c5_overflow_not_guarded :
    ((AddressSpace.new "a").add_mapping_at 0 0 5 (2 ^ 64 - 10) = (.ok (), nearTop))
    ∧ ((nearTop.add_mapping_at 0 0 100 (2 ^ 64 - 6)).1 = .ok ())
    ∧ UMAX < (2 ^ 64 - 6) + 100 := by
  decide

/-- Claim C6, confirmed: `add_mapping_at` for `[5,15)` on a space holding
`[10,20)` returns the error and the returned state is the unchanged input;
and in general every failing `add_mapping_at` returns its input state
unchanged (all error paths precede any mutation). -/
theorem c6_fixed_rejection_atomic :
    ((⟨"f", [⟨0, 0, 10, 10⟩]⟩ : AddressSpace).add_mapping_at 0 0 10 5
        = (.error "no space for that map", ⟨"f", [⟨0, 0, 10, 10⟩]⟩))
    ∧ ∀ (a : AddressSpace) (src off span start : Nat) (msg : String),
        (a.add_mapping_at src off span start).1 = .error msg →
        (a.add_mapping_at src off span start).2 = a := by
  refine ⟨by decide, ?_⟩
  intro a src off span start msg h
  rcases hd : a.mappings.dropWhile (fun x => !endGe start x) with _ | ⟨e, rest⟩
  · by_cases hc : UMAX - span ≤ start
    · rw [addAt_nil_err hd hc]
    · rw [addAt_nil_ok hd hc] at h
      exact absurd h (by simp)
  · by_cases hc : e.addr ≤ wadd start span
    · rw [addAt_cons_err hd hc]
    · rw [addAt_cons_ok hd hc] at h
      exact absurd h (by simp)

theorem c6_fixed_rejection_atomic_witness :
    ((⟨"g", []⟩ : AddressSpace).add_mapping_at 0 0 5 UMAX).2 = ⟨"g", []⟩ :=
  c6_fixed_rejection_atomic.2 ⟨"g", []⟩ 0 0 5 UMAX "no space for that map" (by decide)

/-- Claim C7, amended: on every state reached from `new` by successful
calls none of which wraps the 64-bit address arithmetic, the mappings
sequence is sorted in ascending order of base address. -/
theorem c7_sorted {a : AddressSpace} (h : ReachNW a) : SortedByAddr a.mappings :=
  (reach_WF h).1.imp
    (fun hxy => Nat.le_of_lt (Nat.lt_of_le_of_lt (Nat.le_add_right _ _) hxy))

theorem c7_sorted_witness : SortedByAddr (⟨"s", [⟨3, 4, 7, 100⟩]⟩ : AddressSpace).mappings :=
  c7_sorted (ReachNW.addAt 3 4 7 100 (ReachNW.new "s") (by decide) (by decide))

/-- Claim C7, counterexample: the same two successful calls as in the
wrap-around trace leave the entry with the larger base address first, so
the sequence is not sorted ascending by `addr`. -/
theorem c7_cex :
    ((AddressSpace.new "a").add_mapping_at 0 0 5 (2 ^ 64 - 10) = (.ok (), nearTop))
    ∧ (nearTop.add_mapping_at 0 0 100 (2 ^ 64 - 6) = (.ok (), nearTop2))
    ∧ ¬ SortedByAddr nearTop2.mappings := by
  decide

/-- Claim C8, amended: if no entry of the current state already has base
address `start`, then a successful `add_mapping_at` at `start` followed by
`remove_mapping` at `start` (with any source handle) succeeds and returns
exactly the pre-insertion state. -/
theorem c8_round_trip (a a' : AddressSpace) (src off span start src2 : Nat)
    (hfresh : ∀ x ∈ a.mappings, x.addr ≠ start)
    (h : a.add_mapping_at src off span start = (.ok (), a')) :
    a'.remove_mapping src2 start = (.ok (), a) := by
  rcases hd : a.mappings.dropWhile (fun x => !endGe start x) with _ | ⟨e, rest⟩
  · by_cases hc : UMAX - span ≤ start
    · rw [addAt_nil_err hd hc] at h
      exact absurd h (by simp)
    · rw [addAt_nil_ok hd hc] at h
      injection h with h1 h2
      subst h2
      have hall : ∀ x ∈ a.mappings, (!(x.addr == start)) = true := by
        intro x hx
        simpa using hfresh x hx
      have hd2 : ({ a with mappings := a.mappings ++ [⟨src, off, span, start⟩] }
            : AddressSpace).mappings.dropWhile (fun x => !(x.addr == start))
          = (⟨src, off, span, start⟩ : MapEntry) :: [] := by
        show (a.mappings ++ [(⟨src, off, span, start⟩ : MapEntry)]).dropWhile _ = _
        rw [dropWhile_append_of_all hall]
        simp [List.dropWhile_cons]
      rw [remove_cons_ok hd2]
      have ht2 : ({ a with mappings := a.mappings ++ [⟨src, off, span, start⟩] }
            : AddressSpace).mappings.takeWhile (fun x => !(x.addr == start))
          = a.mappings := by
        show (a.mappings ++ [(⟨src, off, span, start⟩ : MapEntry)]).takeWhile _ = _
        rw [takeWhile_append_of_all hall]
        simp [List.takeWhile_cons]
      rw [ht2, List.append_nil]
  · by_cases hc : e.addr ≤ wadd start span
    · rw [addAt_cons_err hd hc] at h
      exact absurd h (by simp)
    · rw [addAt_cons_ok hd hc] at h
      injection h with h1 h2
      subst h2
      have hallT : ∀ x ∈ a.mappings.takeWhile (fun x => !endGe start x),
          (!(x.addr == start)) = true := by
        intro x hx
        have hxl : x ∈ a.mappings := (List.takeWhile_prefix _).subset hx
        simpa using hfresh x hxl
      have hd2 : ({ a with mappings := a.mappings.takeWhile (fun x => !endGe start x)
              ++ ⟨src, off, span, start⟩ :: e :: rest }
            : AddressSpace).mappings.dropWhile (fun x => !(x.addr == start))
          = (⟨src, off, span, start⟩ : MapEntry) :: e :: rest := by
        show (a.mappings.takeWhile (fun x => !endGe start x)
            ++ (⟨src, off, span, start⟩ : MapEntry) :: e :: rest).dropWhile _ = _
        rw [dropWhile_append_of_all hallT]
        simp [List.dropWhile_cons]
      rw [remove_cons_ok hd2]
      have ht2 : ({ a with mappings := a.mappings.takeWhile (fun x => !endGe start x)
              ++ ⟨src, off, span, start⟩ :: e :: rest }
            : AddressSpace).mappings.takeWhile (fun x => !(x.addr == start))
          = a.mappings.takeWhile (fun x => !endGe start x) := by
        show (a.mappings.takeWhile (fun x => !endGe start x)
            ++ (⟨src, off, span, start⟩ : MapEntry) :: e :: rest).takeWhile _ = _
        rw [takeWhile_append_of_all hallT]
        simp [List.takeWhile_cons]
      rw [ht2]
      have hfin : a.mappings.takeWhile (fun x => !endGe start x) ++ e :: rest = a.mappings := by
        rw [← hd]
        exact List.takeWhile_append_dropWhile _ _
      rw [hfin]

theorem c8_round_trip_witness :
    (∀ x ∈ (⟨"w", [⟨0, 0, 5, 0⟩]⟩ : AddressSpace).mappings, x.addr ≠ 10)
    ∧ ((⟨"w", [⟨0, 0, 5, 0⟩, ⟨1, 2, 5, 10⟩]⟩ : AddressSpace).remove_mapping 9 10
        = (.ok (), ⟨"w", [⟨0, 0, 5, 0⟩]⟩)) :=
  ⟨by decide,
    c8_round_trip ⟨"w", [⟨0, 0, 5, 0⟩]⟩ ⟨"w", [⟨0, 0, 5, 0⟩, ⟨1, 2, 5, 10⟩]⟩ 1 2 5 10 9
      (by decide) (by decide)⟩

/-- Claim C8, counterexample: on the reachable state `nearTop2`, which
already holds an entry based at `2 ^ 64 - 6`, a further successful
insertion at that same address followed by removal at that address
removes the *older* duplicate, so the state differs from the
pre-insertion one. -/
theorem c8_cex :
    ((AddressSpace.new "a").add_mapping_at 0 0 5 (2 ^ 64 - 10) = (.ok (), nearTop))
    ∧ (nearTop.add_mapping_at 0 0 100 (2 ^ 64 - 6) = (.ok (), nearTop2))
    ∧ (nearTop2.add_mapping_at 7 7 100 (2 ^ 64 - 6) = (.ok (), nearTop3))
    ∧ (nearTop3.remove_mapping 7 (2 ^ 64 - 6)
        = (.ok (), ⟨"a", [⟨7, 7, 100, 2 ^ 64 - 6⟩, ⟨0, 0, 5, 2 ^ 64 - 10⟩]⟩))
    ∧ (⟨"a", [⟨7, 7, 100, 2 ^ 64 - 6⟩, ⟨0, 0, 5, 2 ^ 64 - 10⟩]⟩ : AddressSpace) ≠ nearTop2 := by
  decide

/-- Claim C9, confirmed: `remove_mapping` never reads the supplied source
handle; it fails with the no-such-mapping error and the unchanged state
exactly when no entry's base address equals `start`, and otherwise
succeeds, removing precisely the first entry whose base address equals
`start`. -/
theorem c9_remove_rule (a : AddressSpace) (src src2 start : Nat) :
    (a.remove_mapping src start = a.remove_mapping src2 start)
    ∧ ((∀ x ∈ a.mappings, x.addr ≠ start) →
        a.remove_mapping src start = (.error "that map doesn\x27t exist", a))
    ∧ ((∃ x ∈ a.mappings, x.addr = start) →
        a.remove_mapping src start
          = (.ok (), { a with mappings := a.mappings.eraseP (fun x => x.addr == start) })) := by
  refine ⟨rfl, ?_, ?_⟩
  · intro hall
    refine remove_nil_err (List.dropWhile_eq_nil_iff.mpr ?_)
    intro x hx
    simpa using hall x hx
  · intro hex
    rcases hd : a.mappings.dropWhile (fun x => !(x.addr == start)) with _ | ⟨e, rest⟩
    · exfalso
      obtain ⟨x, hx, hxs⟩ := hex
      have hxd := List.dropWhile_eq_nil_iff.mp hd x hx
      simp [hxs] at hxd
    · rw [remove_cons_ok hd]
      have herase : a.mappings.eraseP (fun x => x.addr == start)
          = a.mappings.takeWhile (fun x => !(x.addr == start)) ++ rest := by
        rw [eraseP_eq_takeWhile_append, hd]
        rfl
      rw [herase]

theorem c9_remove_rule_witness :
    (⟨"r", [⟨0, 0, 5, 10⟩]⟩ : AddressSpace).remove_mapping 3 10
      = (.ok (), ⟨"r", []⟩) := by
  have h := (c9_remove_rule ⟨"r", [⟨0, 0, 5, 10⟩]⟩ 3 4 10).2.2 ⟨⟨0, 0, 5, 10⟩, by decide, rfl⟩
  exact h.trans (by decide)

/-- Claim C10, confirmed: with a single entry `[10,20)`, requests for
`[20,30)` and for `[0,10)` — each merely touching the entry at one shared
endpoint and thus disjoint under half-open semantics — both return an
error and leave the state unchanged. -/
theorem c10_adjacent_rejected :
    ((⟨"t", [⟨0, 0, 10, 10⟩]⟩ : AddressSpace).add_mapping_at 0 0 10 20
        = (.error "no space for that map", ⟨"t", [⟨0, 0, 10, 10⟩]⟩))
    ∧ ((⟨"t", [⟨0, 0, 10, 10⟩]⟩ : AddressSpace).add_mapping_at 0 0 10 0
        = (.error "no space for that map", ⟨"t", [⟨0, 0, 10, 10⟩]⟩))
    ∧ ¬ Intersects ⟨0, 0, 10, 20⟩ ⟨0, 0, 10, 10⟩
    ∧ ¬ Intersects ⟨0, 0, 10, 0⟩ ⟨0, 0, 10, 10⟩ := by
  decide

end Vm
